import Mathlib

/-!
# VoxDeck content-script core: a shallow embedding

This file embeds the core of the VoxDeck browser extension
(`src/chrome_extension/popup.js`, the content-script portion) in Lean and
proves properties about it:

* the per-frame audio band analysis and the visual parameter smoothing
  performed by `animate` (lines 283-350);
* the speech-recognition session lifecycle implemented by
  `initializeRecognition`, `startRecognition`, `stopRecognition` and the
  engine event handlers (lines 353-418, 827-860);
* the transcript display maintained by `appendTranscript` (lines 795-825).

Machine floats are modelled by exact arithmetic (`ℚ`, and `ℝ` where a
fractional exponent appears); byte buffers by `List ℕ`; the DOM transcript
display by a list of nodes; timers by explicit handles in the state.
-/

set_option maxHeartbeats 1000000

/-! ## Audio band analysis (`animate`, popup.js lines 288-316)

`dataArray` holds `analyser.frequencyBinCount = 1024` byte magnitudes.
The loop classifies each bin index `i` into bass (`i < bassRange`),
mid (`i < midRange`) or treble, normalizing each byte by 255. -/

/-- The value `dataArray[i] / 255` : a byte magnitude normalized to `[0,1]`. -/
def normByte (b : ℕ) : ℚ := (b : ℚ) / 255

/-- The bound `Math.floor(dataArray.length * 0.1)` (exact arithmetic floor). -/
def bassRange (n : ℕ) : ℕ := n / 10

/-- The bound `Math.floor(dataArray.length * 0.4)` (exact arithmetic floor). -/
def midRange (n : ℕ) : ℕ := n * 4 / 10

/-- The classification loop of `animate`: starting at index `i`, add each
normalized byte to the bass, mid or treble accumulator according to its
index (`i < bassRange`, `i < midRange`, otherwise treble). -/
def sumsFrom (bR mR : ℕ) : ℕ → List ℕ → ℚ × ℚ × ℚ
  | _, [] => (0, 0, 0)
  | i, b :: rest =>
    let acc := sumsFrom bR mR (i + 1) rest
    if i < bR then (normByte b + acc.1, acc.2.1, acc.2.2)
    else if i < mR then (acc.1, normByte b + acc.2.1, acc.2.2)
    else (acc.1, acc.2.1, normByte b + acc.2.2)

/-- The triple `(bassSum, midSum, trebleSum)` after the loop over the whole buffer. -/
def bandSums (data : List ℕ) : ℚ × ℚ × ℚ :=
  sumsFrom (bassRange data.length) (midRange data.length) 0 data

/-- The quotient `bassSum / bassRange` : the raw bass band energy (per-range average). -/
def bassEnergy (data : List ℕ) : ℚ :=
  (bandSums data).1 / ((bassRange data.length : ℕ) : ℚ)

/-- The quotient `midSum / (midRange - bassRange)` : the raw mid band energy. -/
def midEnergy (data : List ℕ) : ℚ :=
  (bandSums data).2.1 / ((midRange data.length - bassRange data.length : ℕ) : ℚ)

/-- The quotient `trebleSum / (dataArray.length - midRange)` : the raw treble band energy. -/
def trebleEnergy (data : List ℕ) : ℚ :=
  (bandSums data).2.2 / ((data.length - midRange data.length : ℕ) : ℚ)

/-- Line 314, `const bassAvg = Math.pow(bassSum / bassRange, 1.2) * 1.2` :
the shaped bass value actually fed to the visual formulas. -/
noncomputable def bassAvg (data : List ℕ) : ℝ :=
  ((bassEnergy data : ℚ) : ℝ) ^ (1.2 : ℝ) * 1.2

/-- Line 315, `const midAvg = (midSum / (midRange - bassRange)) * 0.8`. -/
def midAvg (data : List ℕ) : ℚ := midEnergy data * 0.8

/-- Line 316, `const trebleAvg = (trebleSum / (dataArray.length - midRange)) * 0.7`. -/
def trebleAvg (data : List ℕ) : ℚ := trebleEnergy data * 0.7

/-! ### Decomposing the classification loop into contiguous segments -/

lemma sumsFrom_bass_done (bR mR : ℕ) :
    ∀ (data : List ℕ) (i : ℕ), bR ≤ i →
      sumsFrom bR mR i data =
        (0, ((data.take (mR - i)).map normByte).sum,
            ((data.drop (mR - i)).map normByte).sum) := by
  intro data
  induction data with
  | nil => intro i _; simp [sumsFrom]
  | cons b rest ih =>
    intro i hi
    by_cases hm : i < mR
    · have h1 : ¬ i < bR := by omega
      have h2 : mR - i = (mR - (i + 1)) + 1 := by omega
      simp only [sumsFrom, if_neg h1, if_pos hm, ih (i + 1) (by omega)]
      rw [h2]
      simp
    · have h1 : ¬ i < bR := by omega
      have h2 : mR - i = 0 := by omega
      have h3 : mR - (i + 1) = 0 := by omega
      simp only [sumsFrom, if_neg h1, if_neg hm, ih (i + 1) (by omega)]
      rw [h2, h3]
      simp

lemma sumsFrom_decomp (bR mR : ℕ) (hbm : bR ≤ mR) :
    ∀ (data : List ℕ) (i : ℕ), i ≤ bR →
      sumsFrom bR mR i data =
        (((data.take (bR - i)).map normByte).sum,
         (((data.drop (bR - i)).take (mR - bR)).map normByte).sum,
         (((data.drop (bR - i)).drop (mR - bR)).map normByte).sum) := by
  intro data
  induction data with
  | nil => intro i _; simp [sumsFrom]
  | cons b rest ih =>
    intro i hi
    by_cases hb : i < bR
    · have h2 : bR - i = (bR - (i + 1)) + 1 := by omega
      simp only [sumsFrom, if_pos hb, ih (i + 1) (by omega)]
      rw [h2]
      simp
    · have hieq : bR - i = 0 := by omega
      have hmi : mR - i = mR - bR := by omega
      rw [sumsFrom_bass_done bR mR (b :: rest) i (by omega), hieq, hmi]
      simp

/-- The loop over the buffer computes exactly the sums over the three
contiguous index segments `[0, bassRange)`, `[bassRange, midRange)`,
`[midRange, length)`. -/
lemma bandSums_decomp (data : List ℕ) :
    bandSums data =
      (((data.take (bassRange data.length)).map normByte).sum,
       (((data.drop (bassRange data.length)).take
          (midRange data.length - bassRange data.length)).map normByte).sum,
       ((data.drop (midRange data.length)).map normByte).sum) := by
  have hbm : bassRange data.length ≤ midRange data.length :=
    Nat.div_le_div_right (by omega)
  have h := sumsFrom_decomp (bassRange data.length) (midRange data.length)
    hbm data 0 (Nat.zero_le _)
  rw [bandSums, h]
  simp only [Nat.sub_zero]
  rw [List.drop_drop]
  have h2 : bassRange data.length + (midRange data.length - bassRange data.length) =
      midRange data.length := by omega
  rw [h2]

lemma sum_normByte_nonneg (l : List ℕ) : 0 ≤ (l.map normByte).sum := by
  induction l with
  | nil => simp
  | cons b rest ih =>
    simp only [List.map_cons, List.sum_cons]
    have hb : 0 ≤ normByte b := by
      unfold normByte
      positivity
    linarith

lemma sum_normByte_le_length (l : List ℕ) (h : ∀ b ∈ l, b ≤ 255) :
    (l.map normByte).sum ≤ (l.length : ℚ) := by
  induction l with
  | nil => simp
  | cons b rest ih =>
    simp only [List.map_cons, List.sum_cons, List.length_cons]
    have hb : normByte b ≤ 1 := by
      unfold normByte
      rw [div_le_one (by norm_num)]
      exact_mod_cast h b (List.mem_cons_self b rest)
    have hrest : (rest.map normByte).sum ≤ (rest.length : ℚ) :=
      ih fun x hx => h x (List.mem_cons_of_mem b hx)
    push_cast
    linarith

/-! ## Spec-side description of the band computation

The spec describes `sampleFrame` as partitioning the buffer into three
contiguous ranges (first 10% of bins, bins between 10% and 40%, and the
rest), normalizing each bin by its byte value and averaging over the
range.  These definitions follow the wording of the spec; the theorems below
compare them with the loop-based computation transcribed from the code. -/

/-- Spec wording: average of the normalized first 10% of bins. -/
def specBassEnergy (data : List ℕ) : ℚ :=
  (((data.take (data.length / 10)).map normByte).sum) /
    ((data.length / 10 : ℕ) : ℚ)

/-- Spec wording: average of the normalized bins from 10% to 40%. -/
def specMidEnergy (data : List ℕ) : ℚ :=
  ((((data.drop (data.length / 10)).take
      (data.length * 4 / 10 - data.length / 10)).map normByte).sum) /
    ((data.length * 4 / 10 - data.length / 10 : ℕ) : ℚ)

/-- Spec wording: average of the normalized remaining 60% of bins. -/
def specTrebleEnergy (data : List ℕ) : ℚ :=
  (((data.drop (data.length * 4 / 10)).map normByte).sum) /
    ((data.length - data.length * 4 / 10 : ℕ) : ℚ)

/-- C2: for any frequency buffer of bytes in `[0,255]` (with at least the
ten bins needed for every band to be nonempty; the code always uses 1024
bins), the three band energies produced by the per-frame sampling step -
the per-range normalized averages - lie within `[0,1]`. -/
theorem band_energies_in_unit_interval (data : List ℕ)
    (hb : ∀ b ∈ data, b ≤ 255) (hn : 10 ≤ data.length) :
    (0 ≤ bassEnergy data ∧ bassEnergy data ≤ 1) ∧
    (0 ≤ midEnergy data ∧ midEnergy data ≤ 1) ∧
    (0 ≤ trebleEnergy data ∧ trebleEnergy data ≤ 1) := by
  have hdecomp := bandSums_decomp data
  have hbR : 1 ≤ bassRange data.length := by
    unfold bassRange; omega
  have hmid : 1 ≤ midRange data.length - bassRange data.length := by
    unfold bassRange midRange; omega
  have htreb : 1 ≤ data.length - midRange data.length := by
    unfold midRange; omega
  refine ⟨⟨?_, ?_⟩, ⟨?_, ?_⟩, ⟨?_, ?_⟩⟩
  · unfold bassEnergy
    rw [hdecomp]
    exact div_nonneg (sum_normByte_nonneg _) (by positivity)
  · unfold bassEnergy
    rw [hdecomp]
    rw [div_le_one (by exact_mod_cast hbR)]
    calc ((data.take (bassRange data.length)).map normByte).sum
        ≤ ((data.take (bassRange data.length)).length : ℚ) :=
          sum_normByte_le_length _ fun b hbmem =>
            hb b (List.take_subset _ _ hbmem)
      _ ≤ ((bassRange data.length : ℕ) : ℚ) := by
          simp [List.length_take]
  · unfold midEnergy
    rw [hdecomp]
    exact div_nonneg (sum_normByte_nonneg _) (by positivity)
  · unfold midEnergy
    rw [hdecomp]
    rw [div_le_one (by exact_mod_cast hmid)]
    calc (((data.drop (bassRange data.length)).take
            (midRange data.length - bassRange data.length)).map normByte).sum
        ≤ ((((data.drop (bassRange data.length)).take
            (midRange data.length - bassRange data.length))).length : ℚ) :=
          sum_normByte_le_length _ fun b hbmem =>
            hb b (List.drop_subset _ _ (List.take_subset _ _ hbmem))
      _ ≤ ((midRange data.length - bassRange data.length : ℕ) : ℚ) := by
          simp [List.length_take]
  · unfold trebleEnergy
    rw [hdecomp]
    exact div_nonneg (sum_normByte_nonneg _) (by positivity)
  · unfold trebleEnergy
    rw [hdecomp]
    rw [div_le_one (by exact_mod_cast htreb)]
    calc ((data.drop (midRange data.length)).map normByte).sum
        ≤ (((data.drop (midRange data.length))).length : ℚ) :=
          sum_normByte_le_length _ fun b hbmem =>
            hb b (List.drop_subset _ _ hbmem)
      _ ≤ ((data.length - midRange data.length : ℕ) : ℚ) := by
          simp [List.length_drop]

/-- Witness for `band_energies_in_unit_interval` at a concrete buffer. -/
theorem band_energies_in_unit_interval_witness :
    (∀ b ∈ List.replicate 16 200, b ≤ 255) ∧
    10 ≤ (List.replicate 16 200).length ∧
    ((0 ≤ bassEnergy (List.replicate 16 200) ∧
        bassEnergy (List.replicate 16 200) ≤ 1) ∧
     (0 ≤ midEnergy (List.replicate 16 200) ∧
        midEnergy (List.replicate 16 200) ≤ 1) ∧
     (0 ≤ trebleEnergy (List.replicate 16 200) ∧
        trebleEnergy (List.replicate 16 200) ≤ 1)) :=
  ⟨by decide, by decide,
    band_energies_in_unit_interval _ (by decide) (by decide)⟩

lemma bassEnergy_all_max : bassEnergy (List.replicate 1024 255) = 1 := by
  rw [bassEnergy, bandSums_decomp]
  have hlen : (List.replicate 1024 (255 : ℕ)).length = 1024 :=
    List.length_replicate _ _
  rw [hlen]
  have hbr : bassRange 1024 = 102 := rfl
  rw [hbr]
  rw [List.take_replicate]
  norm_num
  norm_num [normByte]

/-- C6 counterexample: on the all-255 buffer the raw bass average is 1, so
shaping it "with exponent 1.2" would give `1 ^ 1.2 = 1`; the shaped
bass value computed by the code is `Math.pow(1, 1.2) * 1.2 = 1.2`.  The claim omits the extra
gain factor 1.2 applied to the bass band. -/
theorem bass_shaping_has_extra_gain :
    bassAvg (List.replicate 1024 255) ≠
      ((bassEnergy (List.replicate 1024 255) : ℚ) : ℝ) ^ (1.2 : ℝ) := by
  rw [bassAvg, bassEnergy_all_max]
  push_cast
  rw [Real.one_rpow]
  norm_num

/-- C6 amended: each frame the buffer is partitioned into the three
contiguous ranges (first 10% = bass, 10%-40% = mid, rest = treble), each
bin normalized by 255 and averaged over its range; the bass average is
then shaped with exponent 1.2 *and additionally scaled by the gain factor
1.2*, while mid and treble are scaled linearly by 0.8 and 0.7. -/
theorem band_computation_matches_spec_with_gain (data : List ℕ) :
    bassEnergy data = specBassEnergy data ∧
    midEnergy data = specMidEnergy data ∧
    trebleEnergy data = specTrebleEnergy data ∧
    bassAvg data = ((specBassEnergy data : ℚ) : ℝ) ^ (1.2 : ℝ) * 1.2 ∧
    midAvg data = specMidEnergy data * 0.8 ∧
    trebleAvg data = specTrebleEnergy data * 0.7 := by
  have h1 : bassEnergy data = specBassEnergy data := by
    rw [bassEnergy, bandSums_decomp, specBassEnergy]
    rfl
  have h2 : midEnergy data = specMidEnergy data := by
    rw [midEnergy, bandSums_decomp, specMidEnergy]
    rfl
  have h3 : trebleEnergy data = specTrebleEnergy data := by
    rw [trebleEnergy, bandSums_decomp, specTrebleEnergy]
    rfl
  refine ⟨h1, h2, h3, ?_, ?_, ?_⟩
  · rw [bassAvg, h1]
  · rw [midAvg, h2]
  · rw [trebleAvg, h3]

/-! ## Visual parameter smoothing (`animate`, popup.js lines 288-341)

The per-frame mutable visual parameters: the shader uniforms `time` and
`pulseIntensity`, the HSL components of `baseColor`, the rotation angles
and the mesh scale vector.  `animate` maps the current shaped band values
(`bassAvg`, `midAvg`, `trebleAvg`) and the previous state to a new state. -/

structure VisState where
  time : ℝ
  pulseIntensity : ℝ
  hue : ℝ
  saturation : ℝ
  lightness : ℝ
  rotX : ℝ
  rotY : ℝ
  scaleX : ℝ
  scaleY : ℝ
  scaleZ : ℝ

/-- Line 319, `const targetPulse = Math.pow(bassAvg, 1.2) * 3.0 + midAvg * 1.2`. -/
noncomputable def targetPulse (bassA midA : ℝ) : ℝ :=
  bassA ^ (1.2 : ℝ) * 3.0 + midA * 1.2

/-- One body of `animate` (lines 291-341), given the shaped band values
of this frame: advance `time`, interpolate `pulseIntensity` toward its
target with factor 0.15, recompute the HSL color directly, accumulate the
rotation, and interpolate the scale (read from `scale.x`) toward its
target with factor 0.15, setting all three scale axes to the new value. -/
noncomputable def animateStep (bassA midA trebleA : ℝ) (s : VisState) : VisState :=
  let time := s.time + 0.03
  let currentPulse := s.pulseIntensity
  let newPulse := currentPulse + (targetPulse bassA midA - currentPulse) * 0.15
  let hue := 0.6 + (bassA * 0.15 + midA * 0.2 + trebleA * 0.3) * 0.5
  let saturation := 0.7 + bassA * 0.3
  let lightness := 0.5 + (midA * 0.25 + trebleA * 0.15)
  let targetRotationSpeed := 0.001 + (bassA * 0.015 + midA * 0.008)
  let rotX := s.rotX + targetRotationSpeed
  let rotY := s.rotY + targetRotationSpeed * 1.2
  let targetScale := 1 + (bassA * 0.3 + midA * 0.15)
  let currentScale := s.scaleX
  let newScale := currentScale + (targetScale - currentScale) * 0.15
  { time := time, pulseIntensity := newPulse, hue := hue,
    saturation := saturation, lightness := lightness,
    rotX := rotX, rotY := rotY,
    scaleX := newScale, scaleY := newScale, scaleZ := newScale }

/-- Iterated animation frames with a constant band-energy input. -/
noncomputable def iterSteps (bassA midA trebleA : ℝ) (s : VisState) : ℕ → VisState
  | 0 => s
  | n + 1 => animateStep bassA midA trebleA (iterSteps bassA midA trebleA s n)

lemma animateStep_pulse (b m tr : ℝ) (s : VisState) :
    (animateStep b m tr s).pulseIntensity =
      s.pulseIntensity + (targetPulse b m - s.pulseIntensity) * 0.15 := rfl

lemma pulse_step_dist (x T : ℝ) :
    |x + (T - x) * 0.15 - T| = 0.85 * |x - T| := by
  have h : x + (T - x) * 0.15 - T = 0.85 * (x - T) := by ring
  rw [h, abs_mul, abs_of_nonneg (by norm_num : (0:ℝ) ≤ 0.85)]

lemma pulse_dist_geometric (b m tr : ℝ) (s : VisState) :
    ∀ n : ℕ, |(iterSteps b m tr s n).pulseIntensity - targetPulse b m| =
      0.85 ^ n * |s.pulseIntensity - targetPulse b m| := by
  intro n
  induction n with
  | zero => simp [iterSteps]
  | succ n ih =>
    show |(animateStep b m tr (iterSteps b m tr s n)).pulseIntensity - _| = _
    rw [animateStep_pulse, pulse_step_dist, ih, pow_succ]
    ring

/-- C7: each frame `pulseIntensity` is updated by exponential
interpolation toward `bassAvg ^ 1.2 * 3.0 + midAvg * 1.2` with factor
0.15; under a constant band input the distance to the target contracts by
exactly the ratio 0.85 per frame (hence monotonically), so after `n`
frames it is `0.85 ^ n` times the initial distance. -/
theorem pulse_geometric_convergence (b m tr : ℝ) (s : VisState) (n : ℕ) :
    (iterSteps b m tr s (n + 1)).pulseIntensity =
      (iterSteps b m tr s n).pulseIntensity +
        (targetPulse b m - (iterSteps b m tr s n).pulseIntensity) * 0.15 ∧
    |(iterSteps b m tr s (n + 1)).pulseIntensity - targetPulse b m| =
      0.85 * |(iterSteps b m tr s n).pulseIntensity - targetPulse b m| ∧
    |(iterSteps b m tr s (n + 1)).pulseIntensity - targetPulse b m| ≤
      |(iterSteps b m tr s n).pulseIntensity - targetPulse b m| ∧
    |(iterSteps b m tr s n).pulseIntensity - targetPulse b m| =
      0.85 ^ n * |s.pulseIntensity - targetPulse b m| := by
  have hstep : (iterSteps b m tr s (n + 1)).pulseIntensity =
      (iterSteps b m tr s n).pulseIntensity +
        (targetPulse b m - (iterSteps b m tr s n).pulseIntensity) * 0.15 := by
    show (animateStep b m tr (iterSteps b m tr s n)).pulseIntensity = _
    exact animateStep_pulse _ _ _ _
  have hdist : |(iterSteps b m tr s (n + 1)).pulseIntensity - targetPulse b m| =
      0.85 * |(iterSteps b m tr s n).pulseIntensity - targetPulse b m| := by
    rw [hstep, pulse_step_dist]
  refine ⟨hstep, hdist, ?_, pulse_dist_geometric b m tr s n⟩
  rw [hdist]
  have habs : 0 ≤ |(iterSteps b m tr s n).pulseIntensity - targetPulse b m| :=
    abs_nonneg _
  nlinarith

/-- C10: after every per-frame visual update the scale of the visualizer is
uniform - the new scale value is written identically to the x, y and z
axes (`visualizer.scale.set(newScale, newScale, newScale)`, line 341),
for every previous state and every band input. -/
theorem scale_uniform_after_step (b m tr : ℝ) (s : VisState) :
    (animateStep b m tr s).scaleX = (animateStep b m tr s).scaleY ∧
    (animateStep b m tr s).scaleY = (animateStep b m tr s).scaleZ :=
  ⟨rfl, rfl⟩

/-! ## Transcript display (`appendTranscript`, popup.js lines 795-825)

The `#voxdeck-text` display is a sequence of DOM nodes: `final-text`
divs, appended once and immutable, and a single `interim-text` div
created on the first call and thereafter updated in place. -/

inductive TNode where
  | finalText (s : String)
  | interimText (s : String)
deriving DecidableEq

/-- The `textContent` of a node. -/
def tnodeText : TNode → String
  | .finalText s => s
  | .interimText s => s

/-- Reading the display: the concatenated text of its nodes in DOM order. -/
def viewText : List TNode → String
  | [] => ""
  | nd :: dom => tnodeText nd ++ viewText dom

/-- Whether `display.querySelector` finds an `interim-text` node. -/
def hasInterim : List TNode → Bool
  | [] => false
  | .interimText _ :: _ => true
  | _ :: dom => hasInterim dom

/-- Update the `textContent` of the first `interim-text` node in place. -/
def setInterim : List TNode → String → List TNode
  | [], _ => []
  | .interimText _ :: dom, t => .interimText t :: dom
  | nd :: dom, t => nd :: setInterim dom t

/-- The function `appendTranscript(finalText, interimText)` (lines 795-825): if
`finalText` is nonempty, append a new `final-text` div at the end of the
display; then write `interimText` into the existing `interim-text` div,
or create one and append it at the end if none exists yet. -/
def appendTranscript (dom : List TNode) (finalT interimT : String) : List TNode :=
  let d1 := if finalT ≠ "" then dom ++ [TNode.finalText finalT] else dom
  if hasInterim d1 then setInterim d1 interimT
  else d1 ++ [TNode.interimText interimT]

/-- The display after a sequence of recognition result events, each
delivered to `appendTranscript` as a `(finalText, interimText)` pair. -/
def runTranscript (events : List (String × String)) : List TNode :=
  events.foldl (fun dom e => appendTranscript dom e.1 e.2) []

/-- Ordered concatenation of a list of strings. -/
def concatAll : List String → String
  | [] => ""
  | s :: L => s ++ concatAll L

/-- The interim fragment after folding the events over an initial one. -/
def lastInterim : String → List (String × String) → String
  | i, [] => i
  | _, e :: es => lastInterim e.2 es

/-- The shape every reachable nonempty display has: the (possibly absent)
final div of the first event, then the single interim div, then the final
divs of all later events in arrival order. -/
def mkDom (f0 i : String) (L : List String) : List TNode :=
  (if f0 ≠ "" then [TNode.finalText f0] else []) ++
    TNode.interimText i :: (L.filter (fun s => s ≠ "")).map TNode.finalText

lemma str_empty_append (s : String) : "" ++ s = s := by
  have : ("" ++ s).data = s.data := by
    show ([] : List Char) ++ s.data = s.data
    simp
  cases s
  cases this
  rfl

lemma concatAll_filter (L : List String) :
    concatAll (L.filter (fun s => s ≠ "")) = concatAll L := by
  induction L with
  | nil => rfl
  | cons s L ih =>
    by_cases hs : s = ""
    · subst hs
      simpa [concatAll, str_empty_append] using ih
    · have hfil : (s :: L).filter (fun s => s ≠ "") =
          s :: L.filter (fun s => s ≠ "") := by simp [hs]
      rw [hfil]
      show s ++ concatAll (L.filter (fun s => s ≠ "")) = s ++ concatAll L
      rw [ih]

lemma viewText_append (l₁ l₂ : List TNode) :
    viewText (l₁ ++ l₂) = viewText l₁ ++ viewText l₂ := by
  induction l₁ with
  | nil => simp [viewText, str_empty_append]
  | cons nd l₁ ih => simp [viewText, ih, String.append_assoc]

lemma viewText_mkDom (f0 i : String) (L : List String) :
    viewText (mkDom f0 i L) = f0 ++ (i ++ concatAll L) := by
  rw [mkDom, viewText_append]
  have h1 : viewText (if f0 ≠ "" then [TNode.finalText f0] else []) = f0 := by
    by_cases hf : f0 = ""
    · simp [hf, viewText]
    · simp [hf, viewText, tnodeText]
  have h2 : ∀ L' : List String,
      viewText (L'.map TNode.finalText) = concatAll L' := by
    intro L'
    induction L' with
    | nil => rfl
    | cons s L' ih => simp [viewText, tnodeText, concatAll, ih]
  rw [h1, viewText, tnodeText, h2, concatAll_filter]

lemma hasInterim_append_final (dom : List TNode) (f : String) :
    hasInterim (dom ++ [TNode.finalText f]) = hasInterim dom := by
  induction dom with
  | nil => rfl
  | cons nd dom ih =>
    cases nd with
    | finalText s => simpa [hasInterim] using ih
    | interimText s => simp [hasInterim]

lemma hasInterim_mkDom (f0 i : String) (L : List String) :
    hasInterim (mkDom f0 i L) = true := by
  by_cases hf : f0 = "" <;> simp [mkDom, hf, hasInterim]

lemma setInterim_mkDom (f0 i i' : String) (L : List String) :
    setInterim (mkDom f0 i L) i' = mkDom f0 i' L := by
  by_cases hf : f0 = "" <;> simp [mkDom, hf, setInterim]

lemma mkDom_append_final (f0 i f : String) (L : List String) (hf : f ≠ "") :
    mkDom f0 i L ++ [TNode.finalText f] = mkDom f0 i (L ++ [f]) := by
  by_cases h0 : f0 = "" <;>
    simp [mkDom, h0, hf, List.filter_append]

lemma appendTranscript_mkDom (f0 i : String) (L : List String)
    (f' i' : String) :
    appendTranscript (mkDom f0 i L) f' i' = mkDom f0 i' (L ++ [f']) := by
  rw [appendTranscript]
  by_cases hf : f' = ""
  · subst hf
    simp only [ne_eq, not_true_eq_false, if_neg, ite_false]
    rw [if_pos (hasInterim_mkDom f0 i L), setInterim_mkDom]
    have : (L ++ [""]).filter (fun s => s ≠ "") = L.filter (fun s => s ≠ "") := by
      simp [List.filter_append]
    simp [mkDom, this]
  · simp only [ne_eq, hf, not_false_eq_true, if_pos, ite_true]
    rw [mkDom_append_final f0 i f' L hf]
    rw [if_pos (hasInterim_mkDom f0 i' (L ++ [f']) ▸ hasInterim_mkDom f0 i (L ++ [f'])),
      setInterim_mkDom]

lemma appendTranscript_nil (f i : String) :
    appendTranscript [] f i = mkDom f i [] := by
  rw [appendTranscript]
  by_cases hf : f = ""
  · simp [hf, hasInterim, mkDom]
  · simp [hf, hasInterim, mkDom]

lemma runTranscript_fold (es : List (String × String)) :
    ∀ (f0 i : String) (L : List String),
      es.foldl (fun dom e => appendTranscript dom e.1 e.2) (mkDom f0 i L) =
        mkDom f0 (lastInterim i es) (L ++ es.map Prod.fst) := by
  induction es with
  | nil => intro f0 i L; simp [lastInterim]
  | cons e es ih =>
    intro f0 i L
    simp only [List.foldl_cons, appendTranscript_mkDom, ih, lastInterim,
      List.map_cons]
    simp

/-- C8 amended: after any nonempty sequence of result events the display
reads as: the final fragment of the first event, then the current interim
fragment (the interim div keeps the position where it was first created),
then the final fragments of all later events in arrival order.  It equals
"all finals then interim" whenever no final arrives after the first event
or the current interim is empty; in particular the scenario
`"hello "` then `"world"` (no interim in between) still reads
`"hello world"`. -/
theorem transcript_view_characterization (e : String × String)
    (es : List (String × String)) :
    viewText (runTranscript (e :: es)) =
      e.1 ++ (lastInterim e.2 es ++ concatAll (es.map Prod.fst)) ∧
    viewText (runTranscript [("hello ", ""), ("world", "")]) = "hello world" := by
  constructor
  · rw [runTranscript, List.foldl_cons, appendTranscript_nil,
      runTranscript_fold, viewText_mkDom]
    simp
  · decide

/-- C8 counterexample: deliver the events `("", "A")` (interim only) and
then `("B", "C")` (a final plus a new interim).  The display reads
`"CB"`, not the claimed concatenation of final segments followed by the
current interim fragment, which would be `"B" ++ "C" = "BC"`: the interim
div sits before the later final div. -/
theorem view_not_finals_then_interim :
    viewText (runTranscript [("", "A"), ("B", "C")]) = "CB" ∧
    viewText (runTranscript [("", "A"), ("B", "C")]) ≠ "B" ++ "C" := by
  constructor <;> decide

/-! ## Recognition session lifecycle (popup.js lines 144-151, 353-418, 827-860)

Module state: `isListening`, `restartTimeout` (pending restart timer
handle), `recognition` (the held engine reference).  The DOM carries the
`recording` class on the record button (the user-intent marker that
`onend` and the restart timer callback query) and the `#voxdeck-text`
transcript display.  Engine instances are given fresh ids;
`liveEngines` tracks the instances that have been constructed and not
yet asked to stop.  `startCalls` counts invocations of
`recognition.start()` (engine start requests).  The asynchronous audio
preamble of `startRecognition`/`initializeRecognition` (`initAudio`,
`audioContext.resume`) is abstracted by a success flag `audioOk`; a
`recognition.start()` call that throws (engine already started) is
abstracted by the flag `startOk`. -/

structure RecState where
  isListening : Bool
  buttonRecording : Bool
  restartTimeout : Option ℕ
  nextTimerId : ℕ
  recognition : Option ℕ
  liveEngines : List ℕ
  nextEngineId : ℕ
  startCalls : ℕ
  transcript : List TNode
deriving DecidableEq

/-- The module state when the content script loads. -/
def initState : RecState :=
  { isListening := false, buttonRecording := false, restartTimeout := none,
    nextTimerId := 0, recognition := none, liveEngines := [],
    nextEngineId := 0, startCalls := 0, transcript := [] }

/-- The helper `updateRecordButtonState(isRecording)` (lines 787-793): toggle the
`recording` class on the record button. -/
def updateRecordButtonState (s : RecState) (recording : Bool) : RecState :=
  { s with buttonRecording := recording }

/-- The function `startRecognition()` (lines 827-849): run the audio preamble (early
return on failure); then, if an engine reference is held, call
`recognition.start()` and on success set `isListening` and the button
state. -/
def startRecognition (audioOk startOk : Bool) (s : RecState) : RecState :=
  if !audioOk then s
  else
    match s.recognition with
    | none => s
    | some _ =>
      let s1 := { s with startCalls := s.startCalls + 1 }
      if startOk then updateRecordButtonState { s1 with isListening := true } true
      else s1

/-- The function `stopRecognition()` (lines 851-860): if an engine reference is held,
call `recognition.stop()` (the instance is no longer live); suspend the
audio context; clear `isListening` and the button state.  The engine
reference and `restartTimeout` are left untouched. -/
def stopRecognition (s : RecState) : RecState :=
  let s1 : RecState :=
    match s.recognition with
    | some e => { s with liveEngines := s.liveEngines.erase e }
    | none => s
  updateRecordButtonState { s1 with isListening := false } false

/-- The function `initializeRecognition()` (lines 353-418): if an engine reference is
held, stop it and null the reference; run the audio preamble (on failure
return `false`); construct a fresh engine instance, hold its reference
and return `true`. -/
def initializeRecognition (audioOk : Bool) (s : RecState) : RecState × Bool :=
  let s1 : RecState :=
    match s.recognition with
    | some e =>
      { s with liveEngines := s.liveEngines.erase e, recognition := none }
    | none => s
  if !audioOk then (s1, false)
  else
    ({ s1 with
        recognition := some s1.nextEngineId
        liveEngines := s1.liveEngines ++ [s1.nextEngineId]
        nextEngineId := s1.nextEngineId + 1 }, true)

/-- Line 148, `const RESTART_DELAY = 300`, in milliseconds. -/
def restartDelayMs : ℕ := 300

/-- Lines 380-385, `clearTimeout(restartTimeout)` then `restartTimeout =
setTimeout(..., RESTART_DELAY)` : replace any pending restart timer with
a fresh one. -/
def scheduleRestart (s : RecState) : RecState :=
  { s with
    restartTimeout := some s.nextTimerId
    nextTimerId := s.nextTimerId + 1 }

/-- The handler `recognition.onend` (lines 375-387): clear `isListening`, clear the
`recording` class of the button via `updateRecordButtonState(false)`, and
*then* test `document.querySelector` for `#voxdeck-record-button.recording`;
only if the marker is still present, (re)schedule the restart timer. -/
def onEnded (s : RecState) : RecState :=
  let s1 := updateRecordButtonState { s with isListening := false } false
  if s1.buttonRecording then scheduleRestart s1 else s1

/-- The handler `recognition.onerror` (lines 389-393): log, clear `isListening`,
clear the button state.  Nothing else. -/
def onRecogError (s : RecState) : RecState :=
  updateRecordButtonState { s with isListening := false } false

/-- The handler `recognition.onstart` (lines 370-373). -/
def onStarted (s : RecState) : RecState :=
  updateRecordButtonState { s with isListening := true } true

/-- The handler `recognition.onresult` (lines 395-411): accumulate the final
and interim fragments of the event and, when at least one is nonempty, call
`appendTranscript`. -/
def onResult (finalT interimT : String) (s : RecState) : RecState :=
  if finalT ≠ "" ∨ interimT ≠ "" then
    { s with transcript := appendTranscript s.transcript finalT interimT }
  else s

/-- The restart timer fires (lines 381-385): the timer is consumed; the
callback re-checks the `recording` marker and only then calls
`startRecognition()`. -/
def fireRestartTimer (audioOk startOk : Bool) (s : RecState) : RecState :=
  match s.restartTimeout with
  | none => s
  | some _ =>
    let s1 := { s with restartTimeout := none }
    if s1.buttonRecording then startRecognition audioOk startOk s1 else s1

/-- The record-button click handler (lines 722-731): stop when
listening; otherwise initialize a fresh engine and start it on success. -/
def clickRecord (audioOk startOk : Bool) (s : RecState) : RecState :=
  if s.isListening then stopRecognition s
  else
    let p := initializeRecognition audioOk s
    if p.2 then startRecognition audioOk startOk p.1 else p.1

/-- The events the module reacts to: user commands (button click and the
`startListening`/`stopListening` messages, lines 879-897) and engine
callbacks, plus the restart timer firing. -/
inductive ROp where
  | click (audioOk startOk : Bool)
  | msgStartListening (audioOk startOk : Bool)
  | msgStopListening
  | engineStarted
  | engineEnded
  | engineFailed
  | engineResult (finalT interimT : String)
  | timerFires (audioOk startOk : Bool)

def stepR (s : RecState) : ROp → RecState
  | .click a k => clickRecord a k s
  | .msgStartListening a k => startRecognition a k s
  | .msgStopListening => stopRecognition s
  | .engineStarted => onStarted s
  | .engineEnded => onEnded s
  | .engineFailed => onRecogError s
  | .engineResult f i => onResult f i s
  | .timerFires a k => fireRestartTimer a k s

/-- The module state after a sequence of events from page load. -/
def runR (ops : List ROp) : RecState := ops.foldl stepR initState

/-! ### At most one live engine instance (C1) -/

/-- Either no engine instance is live, or exactly the one currently
referenced by `recognition` is. -/
def engineInv (s : RecState) : Prop :=
  s.liveEngines = [] ∨
    ∃ e, s.recognition = some e ∧ s.liveEngines = [e]

lemma engineInv_initState : engineInv initState := Or.inl rfl

lemma startRecognition_fields (a k : Bool) (s : RecState) :
    (startRecognition a k s).liveEngines = s.liveEngines ∧
    (startRecognition a k s).recognition = s.recognition ∧
    (startRecognition a k s).restartTimeout = s.restartTimeout ∧
    (startRecognition a k s).transcript = s.transcript := by
  unfold startRecognition updateRecordButtonState
  cases a <;> cases k <;> cases hr : s.recognition <;> simp [hr]

lemma stopRecognition_fields (s : RecState) :
    (stopRecognition s).recognition = s.recognition ∧
    (stopRecognition s).restartTimeout = s.restartTimeout ∧
    (stopRecognition s).transcript = s.transcript ∧
    (stopRecognition s).isListening = false ∧
    (stopRecognition s).buttonRecording = false := by
  unfold stopRecognition updateRecordButtonState
  cases hr : s.recognition <;> simp [hr]

lemma initializeRecognition_fields (a : Bool) (s : RecState) :
    (initializeRecognition a s).1.restartTimeout = s.restartTimeout ∧
    (initializeRecognition a s).1.transcript = s.transcript := by
  unfold initializeRecognition
  cases a <;> cases hr : s.recognition <;> simp [hr]

lemma engineInv_startRecognition (a k : Bool) (s : RecState)
    (h : engineInv s) : engineInv (startRecognition a k s) := by
  have hf := startRecognition_fields a k s
  unfold engineInv at h ⊢
  rw [hf.1, hf.2.1]
  exact h

lemma engineInv_stopRecognition (s : RecState) (h : engineInv s) :
    engineInv (stopRecognition s) := by
  unfold engineInv at h ⊢
  unfold stopRecognition updateRecordButtonState
  rcases h with h | ⟨e, hrec, hlive⟩
  · cases hr : s.recognition
    · exact Or.inl (by simp [hr, h])
    · exact Or.inl (by simp [hr, h])
  · rw [hrec]
    exact Or.inl (by simp [hlive])

lemma engineInv_initializeRecognition (a : Bool) (s : RecState)
    (h : engineInv s) : engineInv (initializeRecognition a s).1 := by
  unfold engineInv at h ⊢
  unfold initializeRecognition
  cases hr : s.recognition with
  | none =>
    have hlive : s.liveEngines = [] := by
      rcases h with h | ⟨e', hrec, _⟩
      · exact h
      · rw [hr] at hrec; cases hrec
    cases a with
    | false => simp [hlive]
    | true => simp [hlive]
  | some e =>
    have hlive : s.liveEngines.erase e = [] := by
      rcases h with h | ⟨e', hrec, hlive'⟩
      · rw [h]; rfl
      · rw [hr] at hrec
        cases hrec
        rw [hlive']
        exact List.erase_cons_head e []
    cases a with
    | false => simp [hlive]
    | true => simp [hlive]

lemma engineInv_stepR (s : RecState) (op : ROp) (h : engineInv s) :
    engineInv (stepR s op) := by
  cases op with
  | click a k =>
    show engineInv (clickRecord a k s)
    unfold clickRecord
    by_cases hl : s.isListening = true
    · simp only [hl, if_true]
      exact engineInv_stopRecognition s h
    · simp only [hl, if_false]
      by_cases hp : (initializeRecognition a s).2 = true
      · simp only [hp, if_true]
        exact engineInv_startRecognition a k _
          (engineInv_initializeRecognition a s h)
      · simp only [hp, if_false]
        exact engineInv_initializeRecognition a s h
  | msgStartListening a k => exact engineInv_startRecognition a k s h
  | msgStopListening => exact engineInv_stopRecognition s h
  | engineStarted => exact h
  | engineEnded => exact h
  | engineFailed => exact h
  | engineResult f i =>
    show engineInv (onResult f i s)
    unfold onResult
    split
    · exact h
    · exact h
  | timerFires a k =>
    show engineInv (fireRestartTimer a k s)
    unfold fireRestartTimer
    cases ht : s.restartTimeout with
    | none => exact h
    | some t =>
      dsimp only
      split
      · exact engineInv_startRecognition a k _ h
      · exact h

lemma engineInv_foldl (ops : List ROp) :
    ∀ s : RecState, engineInv s → engineInv (ops.foldl stepR s) := by
  induction ops with
  | nil => intro s h; exact h
  | cons op ops ih =>
    intro s h
    exact ih (stepR s op) (engineInv_stepR s op h)

/-- C1: for every sequence of user start/stop commands and engine
ended/error events (with result events and timer firings interleaved),
at most one recognition engine instance is live at any time, namely the
one currently referenced: `initializeRecognition` stops and releases any
held instance before constructing a new one, and it is the only place an
instance is constructed. -/
theorem engine_instances_at_most_one (ops : List ROp) :
    (runR ops).liveEngines.length ≤ 1 ∧
    ∀ e ∈ (runR ops).liveEngines, (runR ops).recognition = some e := by
  have h : engineInv (runR ops) := engineInv_foldl ops initState engineInv_initState
  unfold engineInv at h
  rcases h with h | ⟨e, hrec, hlive⟩
  · rw [h]
    exact ⟨by simp, by simp⟩
  · rw [hlive]
    refine ⟨by simp, ?_⟩
    intro x hx
    rw [List.mem_singleton] at hx
    rw [hx, hrec]

/-! ### The dead restart branch (C3) and its consequences -/

lemma restartTimeout_none_stepR (s : RecState) (op : ROp)
    (h : s.restartTimeout = none) : (stepR s op).restartTimeout = none := by
  cases op with
  | click a k =>
    show (clickRecord a k s).restartTimeout = none
    unfold clickRecord
    by_cases hl : s.isListening = true
    · rw [if_pos hl, (stopRecognition_fields s).2.1]
      exact h
    · rw [if_neg hl]
      by_cases hp : (initializeRecognition a s).2 = true
      · rw [if_pos hp, (startRecognition_fields a k _).2.2.1,
          (initializeRecognition_fields a s).1]
        exact h
      · rw [if_neg hp, (initializeRecognition_fields a s).1]
        exact h
  | msgStartListening a k =>
    show (startRecognition a k s).restartTimeout = none
    rw [(startRecognition_fields a k s).2.2.1]
    exact h
  | msgStopListening =>
    show (stopRecognition s).restartTimeout = none
    rw [(stopRecognition_fields s).2.1]
    exact h
  | engineStarted => exact h
  | engineEnded => exact h
  | engineFailed => exact h
  | engineResult f i =>
    show (onResult f i s).restartTimeout = none
    unfold onResult
    split
    · exact h
    · exact h
  | timerFires a k =>
    show (fireRestartTimer a k s).restartTimeout = none
    unfold fireRestartTimer
    rw [h]
    exact h

lemma restartTimeout_none_foldl (ops : List ROp) :
    ∀ s : RecState, s.restartTimeout = none →
      (ops.foldl stepR s).restartTimeout = none := by
  induction ops with
  | nil => intro s h; exact h
  | cons op ops ih =>
    intro s h
    exact ih (stepR s op) (restartTimeout_none_stepR s op h)

/-- C3 (code bug witness): after the user starts recording - which sets
the `recording` class of the button, the continuous-mode intent marker - an
engine "ended" event schedules *no* restart: `onend` clears the marker
via `updateRecordButtonState(false)` *before* testing it, so the
scheduling branch is unreachable.  Consequently `restartTimeout` is
`null` after every event sequence whatsoever: the 300 ms debounced
restart machinery (`RESTART_DELAY`, `restartTimeout`) is dead code. -/
theorem ended_never_schedules_restart :
    (runR [ROp.click true true]).buttonRecording = true ∧
    (runR [ROp.click true true, ROp.engineEnded]).restartTimeout = none ∧
    (runR [ROp.click true true, ROp.engineEnded]).buttonRecording = false ∧
    ∀ ops : List ROp, (runR ops).restartTimeout = none := by
  refine ⟨rfl, rfl, rfl, ?_⟩
  intro ops
  exact restartTimeout_none_foldl ops initState rfl

/-- C4: the "error" handler schedules no restart and performs no engine
start: it only marks the session not-listening (and clears the button
state); the pending-timer field, the engine reference, the live set, the
start-call count and the transcript are all untouched, so recovery
requires an explicit new start command. -/
theorem error_schedules_no_restart (s : RecState) :
    (onRecogError s).restartTimeout = s.restartTimeout ∧
    (onRecogError s).isListening = false ∧
    (onRecogError s).startCalls = s.startCalls ∧
    (onRecogError s).recognition = s.recognition ∧
    (onRecogError s).liveEngines = s.liveEngines ∧
    (onRecogError s).transcript = s.transcript :=
  ⟨rfl, rfl, rfl, rfl, rfl, rfl⟩

/-- A state in which a restart timer is pending (as the phrase
"while a restart is pending" in the claims supposes): one engine held and live, timer
handle 0 armed, recording marker set. -/
def pendingRestartState : RecState :=
  { isListening := false, buttonRecording := true, restartTimeout := some 0,
    nextTimerId := 1, recognition := some 0, liveEngines := [0],
    nextEngineId := 1, startCalls := 1, transcript := [] }

/-- C5 counterexample: calling `stopRecognition` while a restart timer
is pending does *not* cancel the timer - `stopRecognition` contains no
`clearTimeout` - so the pending handle survives the stop. -/
theorem stop_does_not_cancel_pending_timer :
    (stopRecognition pendingRestartState).restartTimeout = some 0 ∧
    (stopRecognition pendingRestartState).restartTimeout ≠ none :=
  ⟨rfl, by decide⟩

/-- C5 amended: `stop()` during a pending restart leaves the timer
armed, but no engine start results from that timer afterwards: `stop()`
clears the `recording` marker, and the timer callback re-checks the
marker at fire time and skips `startRecognition`, leaving the session
not listening (provided no intervening command re-arms the marker). -/
theorem stop_then_fire_no_engine_start (s : RecState) (a k : Bool) :
    (stopRecognition s).restartTimeout = s.restartTimeout ∧
    (fireRestartTimer a k (stopRecognition s)).startCalls =
      (stopRecognition s).startCalls ∧
    (fireRestartTimer a k (stopRecognition s)).isListening = false := by
  refine ⟨(stopRecognition_fields s).2.1, ?_, ?_⟩
  · unfold fireRestartTimer
    cases ht : (stopRecognition s).restartTimeout with
    | none => rfl
    | some t =>
      dsimp only
      rw [if_neg]
      have hb := (stopRecognition_fields s).2.2.2.2
      simp [hb]
  · unfold fireRestartTimer
    cases ht : (stopRecognition s).restartTimeout with
    | none => exact (stopRecognition_fields s).2.2.2.1
    | some t =>
      dsimp only
      rw [if_neg]
      · exact (stopRecognition_fields s).2.2.2.1
      · have hb := (stopRecognition_fields s).2.2.2.2
        simp [hb]

/-! ### Transcript preservation across stop and restart (C9) -/

/-- A state holding a nonempty transcript while listening. -/
def listeningWithTranscript : RecState :=
  { isListening := true, buttonRecording := true, restartTimeout := none,
    nextTimerId := 0, recognition := some 0, liveEngines := [0],
    nextEngineId := 1, startCalls := 1,
    transcript := [TNode.finalText "hello ", TNode.interimText ""] }

/-- C9 counterexample: an explicit `stopRecognition` does *not* empty
the transcript - the final-segment history and interim node survive the
stop unchanged (no code clears the `#voxdeck-text` display). -/
theorem stop_preserves_transcript_nonempty :
    (stopRecognition listeningWithTranscript).transcript =
      [TNode.finalText "hello ", TNode.interimText ""] ∧
    (stopRecognition listeningWithTranscript).transcript ≠ [] :=
  ⟨rfl, by decide⟩

/-- C9 amended: neither explicit stop nor the continuous-mode restart
path empties the transcript buffer: `stopRecognition`, the "ended"
handler and a restart-timer firing all preserve the final-segment
history and the interim fragment unchanged. -/
theorem stop_and_restart_preserve_transcript (s : RecState) (a k : Bool) :
    (stopRecognition s).transcript = s.transcript ∧
    (onEnded s).transcript = s.transcript ∧
    (fireRestartTimer a k s).transcript = s.transcript := by
  refine ⟨(stopRecognition_fields s).2.2.1, rfl, ?_⟩
  unfold fireRestartTimer
  cases ht : s.restartTimeout with
  | none => rfl
  | some t =>
    dsimp only
    split
    · exact (startRecognition_fields a k _).2.2.2
    · rfl
